import Mathlib

/-!
# Swap-event decoding of bscexorcist: PancakeSwap v4 decoder and signature dispatch

A shallow embedding of `protocols/pancakev4/pancake_v4.go` and
`protocols/swap.go`.

* Byte strings are lists of `Fin 256`; the fixed-width arrays `common.Hash`
  (`[32]byte`) and `common.Address` (`[20]byte`) carry their length.
* `*big.Int` values are `Int`.
* A pointer `*Swap` is `Option Swap`, `none` being the nil pointer.
* A value of the interface type `SwapEvent` is either the nil interface or a
  dynamic value; a nil `*pancakev4.Swap` stored in an interface variable is a
  dynamic value (of dynamic type `*pancakev4.Swap`), not the nil interface.
* The decoders of the other protocol families and the exact-width helper
  `tools.DecodeSignedInt256` live in packages outside the two source files;
  the former are parameters of the dispatcher, the latter is modelled from
  its contract.
-/

namespace Bscexorcist

/-- One octet. -/
abbrev Byte := Fin 256

/-- Big-endian representation of `n` on exactly `k` bytes (the low `8 * k`
bits of `n`). -/
def beBytes : Nat → Nat → List Byte
  | 0, _ => []
  | k + 1, n => beBytes k (n / 256) ++ [⟨n % 256, Nat.mod_lt n (by decide)⟩]

theorem beBytes_length (k n : Nat) : (beBytes k n).length = k := by
  induction k generalizing n with
  | zero => rfl
  | succ k ih => simp [beBytes, ih]

/-- Unsigned big-endian value of a byte string (`big.Int.SetBytes`). -/
def beNat (b : List Byte) : Nat :=
  b.foldl (fun acc x => acc * 256 + x.val) 0

namespace common

/-- The go-ethereum type `common.Hash`, a `[32]byte`. -/
structure Hash where
  bytes : List Byte
  len : bytes.length = 32
deriving DecidableEq

/-- The go-ethereum type `common.Address`, a `[20]byte`. -/
structure Address where
  bytes : List Byte
  len : bytes.length = 20
deriving DecidableEq

/-- `common.HexToHash` applied to the hexadecimal literal whose numeric value
is `n`: the bytes of the literal, right-aligned in 32 bytes and cropped from
the left when longer. -/
def HexToHash (n : Nat) : Hash :=
  ⟨beBytes 32 n, beBytes_length 32 n⟩

/-- `common.BytesToAddress`: `b` cropped from the left to its last 20 bytes,
then right-aligned in a zeroed 20-byte array. -/
def BytesToAddress (b : List Byte) : Address :=
  ⟨List.replicate (20 - (b.drop (b.length - 20)).length) 0 ++ b.drop (b.length - 20),
    by simp only [List.length_append, List.length_replicate, List.length_drop]; omega⟩

end common

namespace types

/-- The fields of go-ethereum's `types.Log` that the decoders can read: the
emitting contract, the topics and the payload. The remaining fields are block
and transaction metadata that no code here touches. -/
structure Log where
  Address : common.Address
  Topics : List common.Hash
  Data : List Byte

end types

namespace tools

/-- Modelled from the spec: `tools.DecodeSignedInt256`, whose source file is
not among the sources. "Given exactly 32 bytes, interpret them as a
two's-complement big-endian signed integer of up to 256 bits and return its
arbitrary-precision value": the unsigned big-endian value, less `2^256` when
the sign bit (bit 255) is set. -/
def DecodeSignedInt256 (b : List Byte) : Int :=
  if beNat b < 2 ^ 255 then (beNat b : Int) else (beNat b : Int) - 2 ^ 256

end tools

namespace pancakev4

/-- The struct `Swap` of `pancake_v4.go`. -/
structure Swap where
  poolID : common.Hash
  amount0 : Int
  amount1 : Int
deriving DecidableEq

/-- `(*Swap).PairID`: `common.BytesToAddress(s.poolID[:20])`. -/
def Swap.PairID (s : Swap) : common.Address :=
  common.BytesToAddress (s.poolID.bytes.take 20)

/-- `(*Swap).IsToken0To1`: `s.amount0.Sign() > 0`. -/
def Swap.IsToken0To1 (s : Swap) : Bool :=
  decide (s.amount0.sign > 0)

/-- `(*Swap).AmountIn`. -/
def Swap.AmountIn (s : Swap) : Int :=
  if s.amount0.sign > 0 then s.amount0 else -s.amount1

/-- `(*Swap).AmountOut`. -/
def Swap.AmountOut (s : Swap) : Int :=
  if s.amount0.sign < 0 then -s.amount0 else s.amount1

/-- The unexported `parseSwap`: `none` is the nil `*Swap`. The topic index
`1` is taken under the guard `len(log.Topics) == 3`, and the slices
`log.Data[:32]` and `log.Data[32:64]` under `len(log.Data) >= 64`.
`copy(poolID[:], log.Topics[1].Bytes())` fills the 32-byte array with the 32
bytes of the topic. -/
def parseSwap (log : types.Log) : Option Swap :=
  if h : log.Topics.length ≠ 3 ∨ log.Data.length < 64 then
    none
  else
    some
      { poolID := (log.Topics.get ⟨1, by omega⟩)
        amount0 := tools.DecodeSignedInt256 (log.Data.take 32)
        amount1 := tools.DecodeSignedInt256 ((log.Data.take 64).drop 32) }

/-- `ParseCLPoolSwap`. -/
def ParseCLPoolSwap (log : types.Log) : Option Swap :=
  parseSwap log

/-- `ParseBinPoolSwap`. -/
def ParseBinPoolSwap (log : types.Log) : Option Swap :=
  parseSwap log

end pancakev4

/-! ### The decoder with explicit run-time faults -/

/-- The ways in which the body of `parseSwap` could stop other than by
returning: a Go run-time panic of an index expression or of a slice
expression, or a call of `tools.DecodeSignedInt256` that breaks its contract
("input must be exactly 32 bytes"). -/
inductive Fault where
  | indexOutOfRange : Fault
  | sliceBoundsOutOfRange : Fault
  | helperArgumentNot32Bytes : Fault
deriving DecidableEq

/-- The Go index expression `xs[i]`: it panics unless `i < len(xs)`. -/
def goIndex {α : Type} (xs : List α) (i : Nat) : Except Fault α :=
  if h : i < xs.length then Except.ok (xs.get ⟨i, h⟩) else Except.error Fault.indexOutOfRange

/-- The Go slice expression `xs[lo:hi]`: the elements `lo, …, hi - 1`. Go
panics unless `lo ≤ hi ≤ cap(xs)`; the bound used here is `len(xs)`, which is
at most `cap(xs)`, so every fault of the source is a fault of the model. -/
def goSlice {α : Type} (xs : List α) (lo hi : Nat) : Except Fault (List α) :=
  if lo ≤ hi ∧ hi ≤ xs.length then Except.ok ((xs.take hi).drop lo)
  else Except.error Fault.sliceBoundsOutOfRange

namespace tools

/-- Modelled from the spec: the contract of `tools.DecodeSignedInt256`,
"input must be exactly 32 bytes; any other length is a programming error in
the caller". The helper with that contract checked: a fault when the argument
is not exactly 32 bytes long. -/
def DecodeSignedInt256Checked (b : List Byte) : Except Fault Int :=
  if b.length = 32 then Except.ok (DecodeSignedInt256 b)
  else Except.error Fault.helperArgumentNot32Bytes

end tools

namespace pancakev4

/-- The body of `parseSwap`, statement by statement, with every index
expression, slice expression and helper call checked. -/
def parseSwapChecked (log : types.Log) : Except Fault (Option Swap) :=
  if log.Topics.length ≠ 3 ∨ log.Data.length < 64 then
    Except.ok none
  else do
    let poolID ← goIndex log.Topics 1
    let word0 ← goSlice log.Data 0 32
    let amount0 ← tools.DecodeSignedInt256Checked word0
    let word1 ← goSlice log.Data 32 64
    let amount1 ← tools.DecodeSignedInt256Checked word1
    Except.ok (some { poolID := poolID, amount0 := amount0, amount1 := amount1 })

end pancakev4

namespace protocols

/-- A value of the interface type `SwapEvent`. `E` is the type of the dynamic
values that the decoders of the other families can put in it.

* `nil` is the nil interface value (the zero value of `var swap SwapEvent`);
* `pancakev4 p` holds the pointer `p` with dynamic type `*pancakev4.Swap`;
  `pancakev4 none` holds the nil pointer and is a different value from `nil`;
* `other e` holds a value produced by another family. -/
inductive SwapEvent (E : Type) where
  | nil : SwapEvent E
  | pancakev4 (p : Option pancakev4.Swap) : SwapEvent E
  | other (e : E) : SwapEvent E

/-- The comparison `swap == nil` on an interface value. -/
def SwapEvent.isNil {E : Type} : SwapEvent E → Bool
  | SwapEvent.nil => true
  | SwapEvent.pancakev4 _ => false
  | SwapEvent.other _ => false

/-- The `ParseSwap` functions of the packages `uniswapv2`, `uniswapv3`,
`uniswapv4`, `dodoswap` and `fourmeme`, which are outside the sources. Each
gives the interface value that the assignment `swap = pkg.ParseSwap(log)`
leaves in `swap`. -/
structure Decoders (E : Type) where
  uniswapv2 : types.Log → SwapEvent E
  uniswapv3 : types.Log → SwapEvent E
  uniswapv4 : types.Log → SwapEvent E
  dodoswap : types.Log → SwapEvent E
  fourmeme : types.Log → SwapEvent E

/-- A Go `map[common.Hash]bool` literal as its list of entries. -/
abbrev SigSet := List (common.Hash × Bool)

/-- The index expression `m[signature]` of a `map[common.Hash]bool`: the
stored value, `false` for an absent key. -/
def SigSet.index (m : SigSet) (signature : common.Hash) : Bool :=
  match m.find? (fun e => decide (e.1 = signature)) with
  | some e => e.2
  | none => false

def uniswapV2SwapSignatures : SigSet :=
  [ (common.HexToHash 0xd78ad95fa46c994b6551d0da85fc275fe613ce37657fb8d5e3d130840159d822, true),
    (common.HexToHash 0x606ecd02b3e3b4778f8e97b2e03351de14224efaa5fa64e62200afc9395c2499, true) ]

def uniswapV3SwapSignatures : SigSet :=
  [ (common.HexToHash 0xc42079f94a6350d7e6235f29174924f928cc2ac818eb64fed8004e115fbcca67, true),
    (common.HexToHash 0x19b47279256b2a23a1665c810c8d55a1758940ee09377d4f8d26497a3577dc83, true) ]

def uniswapV4SwapSignature : common.Hash :=
  common.HexToHash 0x40e9cecb9f5f1f1c5b9c97dec2917b7ee92e57ba5563708daca94dd84ad7112f

def pancakeV4CLPoolSwapSignature : common.Hash :=
  common.HexToHash 0x04206ad2b7c0f463bff3dd4f33c5735b0f2957a351e4f79763a4fa9e775dd237

def pancakeV4BinPoolSwapSignature : common.Hash :=
  common.HexToHash 0x3e8aae37f890eb1f9d63dd4d2062f3f0be757848a0f0760e4f3e53dad556e861

def dodoSwapSignature : common.Hash :=
  common.HexToHash 0xc2c0245e056d5fb095f04cd6373bc770802ebd1e6c918eb78fdef843cdb37b0f

def fourMemeSwapSignatures : SigSet :=
  [ (common.HexToHash 0x7db52723a3b2cdd6164364b3b766e65e540d7be48ffa89582956d8eaebe62942, true),
    (common.HexToHash 0x0a5575b3648bae2210cee56bf33254cc1ddfbc7bf637c0af2ac18b14fb1bae19, true) ]

/-- The `if … else if …` chain of `ParseSwapEvents`: the value of the
variable `swap` after it, for a log whose first topic is `signature`. When no
branch is taken `swap` keeps its zero value, the nil interface. -/
def dispatch {E : Type} (D : Decoders E) (log : types.Log) (signature : common.Hash) :
    SwapEvent E :=
  if uniswapV2SwapSignatures.index signature then D.uniswapv2 log
  else if uniswapV3SwapSignatures.index signature then D.uniswapv3 log
  else if signature = uniswapV4SwapSignature then D.uniswapv4 log
  else if signature = pancakeV4CLPoolSwapSignature then
    SwapEvent.pancakev4 (pancakev4.ParseCLPoolSwap log)
  else if signature = pancakeV4BinPoolSwapSignature then
    SwapEvent.pancakev4 (pancakev4.ParseBinPoolSwap log)
  else if signature = dodoSwapSignature then D.dodoswap log
  else if fourMemeSwapSignatures.index signature then D.fourmeme log
  else SwapEvent.nil

/-- One iteration of the loop of `ParseSwapEvents` on the accumulator
`swaps`. -/
def loopBody {E : Type} (D : Decoders E) (swaps : List (SwapEvent E)) (log : types.Log) :
    List (SwapEvent E) :=
  match log.Topics with
  | [] => swaps
  | signature :: _ =>
    if (dispatch D log signature).isNil then swaps
    else swaps ++ [dispatch D log signature]

/-- `ParseSwapEvents`: the loop over `logs`, from the empty slice. -/
def ParseSwapEvents {E : Type} (D : Decoders E) (logs : List types.Log) : List (SwapEvent E) :=
  logs.foldl (loopBody D) []

/-- The interface value that one loop iteration of `ParseSwapEvents` obtains
for `log`: the nil interface when the iteration is left by `continue` (no
topics), the value of `swap` after the chain otherwise. -/
def decodeLog {E : Type} (D : Decoders E) (log : types.Log) : SwapEvent E :=
  match log.Topics with
  | [] => SwapEvent.nil
  | signature :: _ => dispatch D log signature

/-- The ten registered signature hashes, in the order of the declarations of
`swap.go`. -/
def allSignatures : List common.Hash :=
  uniswapV2SwapSignatures.map Prod.fst ++ uniswapV3SwapSignatures.map Prod.fst ++
    [uniswapV4SwapSignature, pancakeV4CLPoolSwapSignature, pancakeV4BinPoolSwapSignature,
      dodoSwapSignature] ++
    fourMemeSwapSignatures.map Prod.fst

/-- A log is recognized when it has a first topic and that topic is one of
the registered signatures. -/
def recognized (log : types.Log) : Bool :=
  match log.Topics with
  | [] => false
  | signature :: _ => decide (signature ∈ allSignatures)

/-- The seven conditions of the `if … else if …` chain of `ParseSwapEvents`,
in source order, evaluated on `signature`. -/
def branchConditions (signature : common.Hash) : List Bool :=
  [ uniswapV2SwapSignatures.index signature,
    uniswapV3SwapSignatures.index signature,
    decide (signature = uniswapV4SwapSignature),
    decide (signature = pancakeV4CLPoolSwapSignature),
    decide (signature = pancakeV4BinPoolSwapSignature),
    decide (signature = dodoSwapSignature),
    fourMemeSwapSignatures.index signature ]

/-- An `if c₁ then v₁ else if c₂ then v₂ … else d` chain over a list of
(condition, value) branches: the value of the first branch whose condition
holds, `d` when none does. -/
def firstMatch {α : Type} : List (Bool × α) → α → α
  | [], d => d
  | (c, v) :: rest, d => if c then v else firstMatch rest d

/-- The seven branches of the chain of `ParseSwapEvents`, in source order:
each condition of `branchConditions` with the value its branch assigns to
`swap`. -/
def branches {E : Type} (D : Decoders E) (log : types.Log) (signature : common.Hash) :
    List (Bool × SwapEvent E) :=
  [ (uniswapV2SwapSignatures.index signature, D.uniswapv2 log),
    (uniswapV3SwapSignatures.index signature, D.uniswapv3 log),
    (decide (signature = uniswapV4SwapSignature), D.uniswapv4 log),
    (decide (signature = pancakeV4CLPoolSwapSignature),
      SwapEvent.pancakev4 (pancakev4.ParseCLPoolSwap log)),
    (decide (signature = pancakeV4BinPoolSwapSignature),
      SwapEvent.pancakev4 (pancakev4.ParseBinPoolSwap log)),
    (decide (signature = dodoSwapSignature), D.dodoswap log),
    (fourMemeSwapSignatures.index signature, D.fourmeme log) ]

end protocols

/-! ### Concrete inputs -/

namespace Example

/-- The 32-byte two's-complement word of an integer (ABI encoding of an
`int256`). -/
def encodeInt256 (z : Int) : List Byte :=
  beBytes 32 (z % 2 ^ 256).toNat

/-- The all-zero address. -/
def zeroAddress : common.Address := common.BytesToAddress []

/-- A pool identifier whose 32 bytes are `1, 2, …, 32`. -/
def poolId : common.Hash :=
  common.HexToHash 0x0102030405060708090a0b0c0d0e0f101112131415161718191a1b1c1d1e1f20

/-- A sender topic. -/
def senderTopic : common.Hash := common.HexToHash 0xabcdef

/-- A three-topic PancakeSwap v4 log `[signature, poolId, sender]` whose
payload is the two words `amount0`, `amount1`. -/
def swapLog (signature : common.Hash) (amount0 amount1 : Int) : types.Log :=
  { Address := zeroAddress
    Topics := [signature, poolId, senderTopic]
    Data := encodeInt256 amount0 ++ encodeInt256 amount1 }

/-- A log carrying the CLPool signature alone: one topic, empty payload. -/
def shortLog : types.Log :=
  { Address := zeroAddress
    Topics := [protocols.pancakeV4CLPoolSwapSignature]
    Data := [] }

/-- A two-topic log with the CLPool signature and a 64-byte payload. -/
def twoTopicLog : types.Log :=
  { Address := zeroAddress
    Topics := [protocols.pancakeV4CLPoolSwapSignature, poolId]
    Data := encodeInt256 1000 ++ encodeInt256 (-990) }

/-- A log whose only topic is no registered signature (an ERC-20 `Transfer`). -/
def transferLog : types.Log :=
  { Address := zeroAddress
    Topics := [common.HexToHash 0xddf252ad1be2c89b69c2b068fc378daa952ba7f163c4a11628f55a4df523b3ef]
    Data := [] }

/-- Decoders of the other families that never produce an event. -/
def noDecoders : protocols.Decoders Unit :=
  { uniswapv2 := fun _ => protocols.SwapEvent.nil
    uniswapv3 := fun _ => protocols.SwapEvent.nil
    uniswapv4 := fun _ => protocols.SwapEvent.nil
    dodoswap := fun _ => protocols.SwapEvent.nil
    fourmeme := fun _ => protocols.SwapEvent.nil }

/-- A three-topic log whose first payload word is 32 bytes `0xff` and whose
second word is `0x7f` followed by 31 bytes `0xff`. -/
def extremeLog : types.Log :=
  { Address := zeroAddress
    Topics := [protocols.pancakeV4BinPoolSwapSignature, poolId, senderTopic]
    Data := List.replicate 32 255 ++ (127 :: List.replicate 31 255) }

/-- A log without topics and without payload. -/
def emptyLog : types.Log :=
  { Address := zeroAddress
    Topics := []
    Data := [] }

/-- A log that agrees with `swapLog pancakeV4CLPoolSwapSignature 1000 (-990)`
on `Topics[1]` and on the first 64 payload bytes, and differs from it in the
emitting address, in `Topics[0]`, in `Topics[2]` and by three further payload
bytes. -/
def variantLog : types.Log :=
  { Address := common.BytesToAddress [1, 2, 3]
    Topics := [protocols.pancakeV4BinPoolSwapSignature, poolId, common.HexToHash 0x123456]
    Data := encodeInt256 1000 ++ encodeInt256 (-990) ++ [7, 8, 9] }

end Example

end Bscexorcist

/-! ### Auxiliary lemmas -/

namespace Bscexorcist

open common types tools pancakev4 protocols Example

theorem sign_pos_iff (a : Int) : a.sign > 0 ↔ 0 < a := by
  rcases lt_trichotomy a 0 with h | h | h
  · rw [Int.sign_eq_neg_one_of_neg h]; omega
  · subst h; simp
  · rw [Int.sign_eq_one_of_pos h]; omega

theorem sign_neg_iff (a : Int) : a.sign < 0 ↔ a < 0 := by
  rcases lt_trichotomy a 0 with h | h | h
  · rw [Int.sign_eq_neg_one_of_neg h]; omega
  · subst h; simp
  · rw [Int.sign_eq_one_of_pos h]; omega

theorem parseSwap_eq_none_iff (log : Log) :
    parseSwap log = none ↔ log.Topics.length ≠ 3 ∨ log.Data.length < 64 := by
  unfold parseSwap
  split <;> simp_all

theorem parseSwap_eq_some {log : Log} {s : Swap} (h : parseSwap log = some s) :
    log.Topics.length = 3 ∧ 64 ≤ log.Data.length ∧ log.Topics[1]? = some s.poolID ∧
      s.amount0 = DecodeSignedInt256 (log.Data.take 32) ∧
      s.amount1 = DecodeSignedInt256 ((log.Data.take 64).drop 32) := by
  unfold parseSwap at h
  split at h
  · simp at h
  · rename_i hc
    simp only [Option.some.injEq] at h
    subst h
    refine ⟨by omega, by omega, ?_, rfl, rfl⟩
    simp [List.getElem?_eq_getElem (show 1 < log.Topics.length by omega)]

theorem dispatch_CL {E : Type} (D : Decoders E) (log : Log) :
    dispatch D log pancakeV4CLPoolSwapSignature = SwapEvent.pancakev4 (ParseCLPoolSwap log) := by
  have h1 : uniswapV2SwapSignatures.index pancakeV4CLPoolSwapSignature = false := by decide
  have h2 : uniswapV3SwapSignatures.index pancakeV4CLPoolSwapSignature = false := by decide
  have h3 : pancakeV4CLPoolSwapSignature ≠ uniswapV4SwapSignature := by decide
  simp [dispatch, h1, h2, h3]

theorem dispatch_Bin {E : Type} (D : Decoders E) (log : Log) :
    dispatch D log pancakeV4BinPoolSwapSignature = SwapEvent.pancakev4 (ParseBinPoolSwap log) := by
  have h1 : uniswapV2SwapSignatures.index pancakeV4BinPoolSwapSignature = false := by decide
  have h2 : uniswapV3SwapSignatures.index pancakeV4BinPoolSwapSignature = false := by decide
  have h3 : pancakeV4BinPoolSwapSignature ≠ uniswapV4SwapSignature := by decide
  have h4 : pancakeV4BinPoolSwapSignature ≠ pancakeV4CLPoolSwapSignature := by decide
  simp [dispatch, h1, h2, h3, h4]

theorem loopBody_eq {E : Type} (D : Decoders E) (swaps : List (SwapEvent E)) (log : Log) :
    loopBody D swaps log =
      if (decodeLog D log).isNil then swaps else swaps ++ [decodeLog D log] := by
  unfold loopBody decodeLog
  split <;> simp_all [SwapEvent.isNil]

theorem foldl_loopBody {E : Type} (D : Decoders E) (logs : List Log)
    (acc : List (SwapEvent E)) :
    logs.foldl (loopBody D) acc =
      acc ++ (logs.map (decodeLog D)).filter (fun e => !e.isNil) := by
  induction logs generalizing acc with
  | nil => simp
  | cons l ls ih =>
    rw [List.foldl_cons, ih, loopBody_eq]
    by_cases h : (decodeLog D l).isNil = true
    · simp [h]
    · simp [h]

theorem ParseSwapEvents_eq_filter {E : Type} (D : Decoders E) (logs : List Log) :
    ParseSwapEvents D logs = (logs.map (decodeLog D)).filter (fun e => !e.isNil) := by
  simp [ParseSwapEvents, foldl_loopBody]

theorem ParseSwapEvents_append {E : Type} (D : Decoders E) (xs ys : List Log) :
    ParseSwapEvents D (xs ++ ys) = ParseSwapEvents D xs ++ ParseSwapEvents D ys := by
  simp [ParseSwapEvents_eq_filter]

theorem ParseSwapEvents_cons {E : Type} (D : Decoders E) (x : Log) (ys : List Log) :
    ParseSwapEvents D (x :: ys) = ParseSwapEvents D [x] ++ ParseSwapEvents D ys :=
  ParseSwapEvents_append D [x] ys

theorem ParseSwapEvents_singleton {E : Type} (D : Decoders E) (x : Log) :
    ParseSwapEvents D [x] = if (decodeLog D x).isNil then [] else [decodeLog D x] := by
  by_cases h : (decodeLog D x).isNil = true <;> simp [ParseSwapEvents_eq_filter, h]

theorem BytesToAddress_bytes_of_length_eq (b : List Byte) (h : b.length = 20) :
    (BytesToAddress b).bytes = b := by
  simp [BytesToAddress, h]

theorem PairID_bytes (s : Swap) : s.PairID.bytes = s.poolID.bytes.take 20 := by
  unfold Swap.PairID
  apply BytesToAddress_bytes_of_length_eq
  simp [s.poolID.len]

theorem Address_ext {a b : Address} (h : a.bytes = b.bytes) : a = b := by
  cases a; cases b; cases h; rfl

theorem SigSet.index_eq_true_imp_mem (m : SigSet) (signature : Hash)
    (h : m.index signature = true) : signature ∈ m.map Prod.fst := by
  unfold SigSet.index at h
  split at h
  · rename_i e he
    have h1 := List.find?_some he
    have h2 := List.mem_of_find?_eq_some he
    simp only [decide_eq_true_eq] at h1
    exact List.mem_map.2 ⟨e, h2, h1⟩
  · simp at h

theorem dispatch_eq_firstMatch {E : Type} (D : Decoders E) (log : Log) (signature : Hash) :
    dispatch D log signature = firstMatch (branches D log signature) SwapEvent.nil := by
  simp only [dispatch, branches, firstMatch, decide_eq_true_eq]

theorem branches_conditions {E : Type} (D : Decoders E) (log : Log) (signature : Hash) :
    (branches D log signature).map Prod.fst = branchConditions signature := rfl

theorem firstMatch_of_all_false {α : Type} (l : List (Bool × α)) (d : α)
    (h : ∀ x ∈ l, x.1 = false) : firstMatch l d = d := by
  induction l with
  | nil => rfl
  | cons y ys ih =>
    obtain ⟨c, v⟩ := y
    have hc : c = false := h (c, v) (List.mem_cons_self _ _)
    subst hc
    simp only [firstMatch]
    exact ih (fun x hx => h x (List.mem_cons_of_mem _ hx))

theorem firstMatch_of_unique {α : Type} (l : List (Bool × α)) (d : α)
    (h : (l.map Prod.fst).count true ≤ 1) (x : Bool × α) (hx : x ∈ l) (hx1 : x.1 = true) :
    firstMatch l d = x.2 := by
  induction l with
  | nil => simp at hx
  | cons y ys ih =>
    obtain ⟨c, v⟩ := y
    cases c with
    | true =>
      simp only [firstMatch, if_true]
      rcases List.mem_cons.1 hx with hxy | hxy
      · rw [hxy]
      · exfalso
        have hmem : true ∈ ys.map Prod.fst := List.mem_map.2 ⟨x, hxy, hx1⟩
        have hpos : 0 < (ys.map Prod.fst).count true := List.count_pos_iff.2 hmem
        simp only [List.map_cons, List.count_cons_self] at h
        omega
    | false =>
      simp only [firstMatch]
      rcases List.mem_cons.1 hx with hxy | hxy
      · rw [hxy] at hx1; simp at hx1
      · apply ih _ hxy
        simpa using h

theorem firstMatch_perm {α : Type} (l l2 : List (Bool × α)) (d : α) (hp : l2.Perm l)
    (h : (l.map Prod.fst).count true ≤ 1) : firstMatch l2 d = firstMatch l d := by
  have h2 : (l2.map Prod.fst).count true ≤ 1 := by
    rw [(hp.map Prod.fst).count_eq]; exact h
  by_cases hex : ∃ x ∈ l, x.1 = true
  · obtain ⟨x, hx, hx1⟩ := hex
    rw [firstMatch_of_unique l d h x hx hx1,
      firstMatch_of_unique l2 d h2 x (hp.mem_iff.2 hx) hx1]
  · have hall : ∀ x ∈ l, x.1 = false := by
      intro x hx
      cases hb : x.1 with
      | false => rfl
      | true => exact absurd ⟨x, hx, hb⟩ hex
    rw [firstMatch_of_all_false l d hall,
      firstMatch_of_all_false l2 d (fun x hx => hall x (hp.mem_iff.1 hx))]

theorem branchConditions_of_not_mem (signature : Hash) (h : signature ∉ allSignatures) :
    branchConditions signature = [false, false, false, false, false, false, false] := by
  have h2 : uniswapV2SwapSignatures.index signature = false := by
    cases hb : uniswapV2SwapSignatures.index signature with
    | false => rfl
    | true =>
      exact absurd (by simp [allSignatures, SigSet.index_eq_true_imp_mem _ _ hb]) h
  have h3 : uniswapV3SwapSignatures.index signature = false := by
    cases hb : uniswapV3SwapSignatures.index signature with
    | false => rfl
    | true =>
      have := SigSet.index_eq_true_imp_mem _ _ hb
      exact absurd (by simp only [allSignatures, List.mem_append]; tauto) h
  have h7 : fourMemeSwapSignatures.index signature = false := by
    cases hb : fourMemeSwapSignatures.index signature with
    | false => rfl
    | true =>
      have := SigSet.index_eq_true_imp_mem _ _ hb
      exact absurd (by simp only [allSignatures, List.mem_append]; tauto) h
  have h4 : signature ≠ uniswapV4SwapSignature := by
    rintro rfl; exact h (by simp [allSignatures])
  have h5 : signature ≠ pancakeV4CLPoolSwapSignature := by
    rintro rfl; exact h (by simp [allSignatures])
  have h6 : signature ≠ pancakeV4BinPoolSwapSignature := by
    rintro rfl; exact h (by simp [allSignatures])
  have h8 : signature ≠ dodoSwapSignature := by
    rintro rfl; exact h (by simp [allSignatures])
  simp [branchConditions, h2, h3, h4, h5, h6, h7, h8]

theorem dispatch_of_not_mem {E : Type} (D : Decoders E) (log : Log) (signature : Hash)
    (h : signature ∉ allSignatures) : dispatch D log signature = SwapEvent.nil := by
  rw [dispatch_eq_firstMatch]
  apply firstMatch_of_all_false
  intro x hx
  have hm : x.1 ∈ (branches D log signature).map Prod.fst := List.mem_map_of_mem _ hx
  rw [branches_conditions, branchConditions_of_not_mem signature h] at hm
  simpa using hm

theorem decodeLog_of_not_recognized {E : Type} (D : Decoders E) (log : Log)
    (h : recognized log = false) : decodeLog D log = SwapEvent.nil := by
  unfold recognized at h
  unfold decodeLog
  split
  · rfl
  · rename_i signature rest heq
    rw [heq] at h
    simp only [decide_eq_false_iff_not] at h
    exact dispatch_of_not_mem D log signature h

theorem branchConditions_count_le_one (signature : Hash) :
    (branchConditions signature).count true ≤ 1 := by
  by_cases h : signature ∈ allSignatures
  · simp only [allSignatures, uniswapV2SwapSignatures, uniswapV3SwapSignatures,
      fourMemeSwapSignatures, List.map_cons, List.map_nil, List.mem_append, List.mem_cons,
      List.mem_singleton, List.not_mem_nil, or_false] at h
    rcases h with (((h | h) | (h | h)) | (h | h | h | h)) | (h | h) <;> subst h <;> decide
  · rw [branchConditions_of_not_mem signature h]
    decide

theorem beNat_append_singleton (l : List Byte) (x : Byte) :
    beNat (l ++ [x]) = beNat l * 256 + x.val := by
  simp [beNat, List.foldl_append]

theorem beNat_beBytes (k n : Nat) : beNat (beBytes k n) = n % 256 ^ k := by
  induction k generalizing n with
  | zero => simp [beBytes, beNat, Nat.mod_one]
  | succ k ih =>
    rw [beBytes, beNat_append_singleton, ih, pow_succ', Nat.mod_mul]
    simp only []
    ring

theorem beNat_lt (b : List Byte) : beNat b < 256 ^ b.length := by
  induction b using List.reverseRecOn with
  | nil => simp [beNat]
  | append_singleton l x ih =>
    rw [beNat_append_singleton, List.length_append, List.length_singleton, pow_succ]
    have := x.isLt
    nlinarith

set_option maxRecDepth 100000 in
theorem DecodeSignedInt256_range (b : List Byte) (hb : b.length = 32) :
    -(2 : Int) ^ 255 ≤ DecodeSignedInt256 b ∧ DecodeSignedInt256 b < 2 ^ 255 ∧
      DecodeSignedInt256 b % 2 ^ 256 = (beNat b : Int) ∧
      (DecodeSignedInt256 b < 0 ↔ 2 ^ 255 ≤ beNat b) := by
  have hlt : beNat b < 2 ^ 256 := by
    have := beNat_lt b
    rw [hb] at this
    exact lt_of_lt_of_eq this (by norm_num)
  unfold DecodeSignedInt256
  split
  · rename_i h
    refine ⟨by omega, by omega, ?_, by omega⟩
    omega
  · rename_i h
    refine ⟨by omega, by omega, ?_, by omega⟩
    omega

set_option maxRecDepth 100000 in
theorem DecodeSignedInt256_encodeInt256 (z : Int) (h1 : -(2 : Int) ^ 255 ≤ z)
    (h2 : z < 2 ^ 255) : DecodeSignedInt256 (encodeInt256 z) = z := by
  unfold DecodeSignedInt256 encodeInt256
  rw [beNat_beBytes]
  have hpow : (256 : Nat) ^ 32 = 2 ^ 256 := by norm_num
  rw [hpow]
  have hnn : 0 ≤ z % 2 ^ 256 := Int.emod_nonneg _ (by norm_num)
  have hlt : z % 2 ^ 256 < 2 ^ 256 := Int.emod_lt_of_pos _ (by norm_num)
  have hmod : (z % 2 ^ 256).toNat % 2 ^ 256 = (z % 2 ^ 256).toNat := by
    apply Nat.mod_eq_of_lt
    omega
  rw [hmod]
  split <;> omega

theorem ParseSwapEvents_insert_rejected {E : Type} (D : Decoders E) (log : Log)
    (rest : List Hash)
    (hsig : log.Topics = pancakeV4CLPoolSwapSignature :: rest ∨
      log.Topics = pancakeV4BinPoolSwapSignature :: rest)
    (hrej : parseSwap log = none) (before after : List Log) :
    ParseSwapEvents D (before ++ log :: after) =
      ParseSwapEvents D before ++ SwapEvent.pancakev4 none :: ParseSwapEvents D after := by
  have hd : decodeLog D log = SwapEvent.pancakev4 none := by
    unfold decodeLog
    rcases hsig with hs | hs
    · rw [hs]; simp only []; rw [dispatch_CL]; unfold ParseCLPoolSwap; rw [hrej]
    · rw [hs]; simp only []; rw [dispatch_Bin]; unfold ParseBinPoolSwap; rw [hrej]
  have h1 : ParseSwapEvents D [log] = [SwapEvent.pancakev4 none] := by
    rw [ParseSwapEvents_singleton, hd]; rfl
  rw [ParseSwapEvents_append, ParseSwapEvents_cons, h1]; rfl

theorem AmountIn_of_pos (s : Swap) (h : 0 < s.amount0) : s.AmountIn = s.amount0 := by
  unfold Swap.AmountIn; rw [if_pos ((sign_pos_iff _).2 h)]

theorem AmountIn_of_nonpos (s : Swap) (h : s.amount0 ≤ 0) : s.AmountIn = -s.amount1 := by
  unfold Swap.AmountIn; rw [if_neg (fun hc => by have := (sign_pos_iff _).1 hc; omega)]

theorem AmountOut_of_neg (s : Swap) (h : s.amount0 < 0) : s.AmountOut = -s.amount0 := by
  unfold Swap.AmountOut; rw [if_pos ((sign_neg_iff _).2 h)]

theorem AmountOut_of_nonneg (s : Swap) (h : 0 ≤ s.amount0) : s.AmountOut = s.amount1 := by
  unfold Swap.AmountOut; rw [if_neg (fun hc => by have := (sign_neg_iff _).1 hc; omega)]

theorem goIndex_of_lt {α : Type} (xs : List α) (i : Nat) (h : i < xs.length) :
    goIndex xs i = Except.ok (xs.get ⟨i, h⟩) := by
  unfold goIndex
  rw [dif_pos h]

theorem goSlice_of_le {α : Type} (xs : List α) (lo hi : Nat) (h1 : lo ≤ hi)
    (h2 : hi ≤ xs.length) : goSlice xs lo hi = Except.ok ((xs.take hi).drop lo) := by
  unfold goSlice
  rw [if_pos ⟨h1, h2⟩]

theorem DecodeSignedInt256Checked_of_length (b : List Byte) (h : b.length = 32) :
    DecodeSignedInt256Checked b = Except.ok (DecodeSignedInt256 b) := by
  unfold DecodeSignedInt256Checked
  rw [if_pos h]

theorem parseSwapChecked_eq (log : Log) : parseSwapChecked log = Except.ok (parseSwap log) := by
  unfold parseSwapChecked parseSwap
  by_cases hc : log.Topics.length ≠ 3 ∨ log.Data.length < 64
  · rw [if_pos hc, dif_pos hc]
  · rw [if_neg hc, dif_neg hc]
    have ht : 1 < log.Topics.length := by omega
    have hd : 64 ≤ log.Data.length := by omega
    have l0 : ((log.Data.take 32).drop 0).length = 32 := by
      rw [List.drop_zero, List.length_take]; omega
    have l1 : ((log.Data.take 64).drop 32).length = 32 := by
      rw [List.length_drop, List.length_take]; omega
    rw [goIndex_of_lt _ _ ht, goSlice_of_le _ 0 32 (by omega) (by omega),
      goSlice_of_le _ 32 64 (by omega) hd]
    simp only [bind, Except.bind]
    rw [DecodeSignedInt256Checked_of_length _ l0, DecodeSignedInt256Checked_of_length _ l1]
    simp only [List.drop_zero]

theorem parseSwap_of_shape (log : Log) (h3 : log.Topics.length = 3)
    (hd : 64 ≤ log.Data.length) : ∃ s : Swap, parseSwap log = some s := by
  cases hp : parseSwap log with
  | some s => exact ⟨s, rfl⟩
  | none =>
    have := (parseSwap_eq_none_iff log).1 hp
    omega

theorem decodeLog_pancake {E : Type} (D : Decoders E) (log : Log)
    (hsig : log.Topics[0]? = some pancakeV4CLPoolSwapSignature ∨
      log.Topics[0]? = some pancakeV4BinPoolSwapSignature) :
    decodeLog D log = SwapEvent.pancakev4 (parseSwap log) := by
  unfold decodeLog
  cases hT : log.Topics with
  | nil => rw [hT] at hsig; simp at hsig
  | cons signature rest =>
    rw [hT] at hsig
    simp only [List.getElem?_cons_zero, Option.some.injEq] at hsig
    rcases hsig with hs | hs
    · subst hs; simp only []; rw [dispatch_CL]; rfl
    · subst hs; simp only []; rw [dispatch_Bin]; rfl

/-! ### The claims -/

/-- C1 (the code at the failing input). `shortLog` has the CLPool signature as
its only topic, so `ParseCLPoolSwap` returns the nil pointer for it; the
dispatcher stores that pointer in the interface variable `swap`, the test
`swap != nil` succeeds, and the nil event is appended. Wherever `shortLog` is
inserted the output gains one element, a nil pancakev4 event; and the same
holds for every log with the CLPool or BinPool signature that `parseSwap`
rejects. -/
theorem C1_not_applicable_log_is_appended :
    ∀ (E : Type) (D : Decoders E) (before after : List Log),
      ParseCLPoolSwap shortLog = none ∧
      ParseSwapEvents D (before ++ shortLog :: after) =
        ParseSwapEvents D before ++ SwapEvent.pancakev4 none :: ParseSwapEvents D after ∧
      (ParseSwapEvents D (before ++ shortLog :: after)).length =
        (ParseSwapEvents D (before ++ after)).length + 1 ∧
      SwapEvent.pancakev4 none ∈ ParseSwapEvents D (before ++ shortLog :: after) ∧
      (∀ (log : Log) (rest : List Hash),
        (log.Topics = pancakeV4CLPoolSwapSignature :: rest ∨
          log.Topics = pancakeV4BinPoolSwapSignature :: rest) →
        (log.Topics.length ≠ 3 ∨ log.Data.length < 64) →
        ParseSwapEvents D (before ++ log :: after) =
          ParseSwapEvents D before ++ SwapEvent.pancakev4 none :: ParseSwapEvents D after) := by
  intro E D before after
  have hp : ParseCLPoolSwap shortLog = none := by decide
  have h2 : ParseSwapEvents D (before ++ shortLog :: after) =
      ParseSwapEvents D before ++ SwapEvent.pancakev4 none :: ParseSwapEvents D after :=
    ParseSwapEvents_insert_rejected D shortLog [] (Or.inl rfl) hp before after
  refine ⟨hp, h2, ?_, ?_, ?_⟩
  · rw [h2, ParseSwapEvents_append]; simp; omega
  · rw [h2]; simp
  · intro log rest hsig hshape
    exact ParseSwapEvents_insert_rejected D log rest hsig
      ((parseSwap_eq_none_iff log).2 hshape) before after

set_option maxRecDepth 100000 in
/-- C2 (the code at the failing input). For the three-topic log whose payload
encodes amount0 = +1000, amount1 = -990 the event has IsToken0To1 = true,
AmountIn = 1000 and AmountOut = -990 (not 990); for amount0 = -990,
amount1 = +1000 it has AmountIn = -1000 (not 1000) and AmountOut = 990. In
general, for deltas of strictly opposite signs the accessor that reads
amount1 returns a negative number. -/
theorem C2_opposite_signs_at_example :
    (parseSwap (swapLog pancakeV4CLPoolSwapSignature 1000 (-990))).map
        (fun s => (s.IsToken0To1, s.AmountIn, s.AmountOut)) = some (true, 1000, -990) ∧
    (parseSwap (swapLog pancakeV4CLPoolSwapSignature (-990) 1000)).map
        (fun s => (s.IsToken0To1, s.AmountIn, s.AmountOut)) = some (false, -1000, 990) ∧
    (∀ s : Swap, 0 < s.amount0 ∧ s.amount1 < 0 →
      s.AmountIn = s.amount0 ∧ s.AmountOut = s.amount1 ∧ s.AmountOut < 0) ∧
    (∀ s : Swap, s.amount0 < 0 ∧ 0 < s.amount1 →
      s.AmountIn = -s.amount1 ∧ s.AmountIn < 0 ∧ s.AmountOut = -s.amount0) := by
  refine ⟨by decide, by decide, ?_, ?_⟩
  · rintro s ⟨h0, h1⟩
    have e := AmountOut_of_nonneg s (by omega)
    exact ⟨AmountIn_of_pos s h0, e, by rw [e]; exact h1⟩
  · rintro s ⟨h0, h1⟩
    have e := AmountIn_of_nonpos s (by omega)
    exact ⟨e, by rw [e]; omega, AmountOut_of_neg s h0⟩

set_option maxRecDepth 100000 in
/-- C3 (the code at the failing input). The accepted log whose payload encodes
amount0 = +5, amount1 = -3 is decoded to an event with AmountIn = 5 and
AmountOut = -3, a negative amount, so non-negativity does not hold for every
accepted log. The accessors return a negative amount exactly when the deltas
have opposite signs or amount0 = 0 with amount1 nonzero: AmountIn or AmountOut
is negative if and only if amount0 ≤ 0 < amount1 or amount1 < 0 ≤ amount0. On
deltas of the same strict sign both amounts are non-negative. -/
theorem C3_negative_amount_on_accepted_log :
    parseSwap (swapLog pancakeV4BinPoolSwapSignature 5 (-3)) = some ⟨poolId, 5, -3⟩ ∧
    Swap.AmountIn ⟨poolId, 5, -3⟩ = 5 ∧
    Swap.AmountOut ⟨poolId, 5, -3⟩ = -3 ∧
    (¬ ∀ (log : Log) (s : Swap), parseSwap log = some s → 0 ≤ s.AmountIn ∧ 0 ≤ s.AmountOut) ∧
    (∀ s : Swap, ¬ (0 ≤ s.AmountIn ∧ 0 ≤ s.AmountOut) ↔
      (s.amount0 ≤ 0 ∧ 0 < s.amount1) ∨ (0 ≤ s.amount0 ∧ s.amount1 < 0)) ∧
    (∀ s : Swap, (0 < s.amount0 ∧ 0 < s.amount1) ∨ (s.amount0 < 0 ∧ s.amount1 < 0) →
      0 ≤ s.AmountIn ∧ 0 ≤ s.AmountOut) := by
  have h1 : parseSwap (swapLog pancakeV4BinPoolSwapSignature 5 (-3)) = some ⟨poolId, 5, -3⟩ := by
    decide
  have hchar : ∀ s : Swap, ¬ (0 ≤ s.AmountIn ∧ 0 ≤ s.AmountOut) ↔
      (s.amount0 ≤ 0 ∧ 0 < s.amount1) ∨ (0 ≤ s.amount0 ∧ s.amount1 < 0) := by
    intro s
    rcases lt_trichotomy s.amount0 0 with h0 | h0 | h0
    · rw [AmountIn_of_nonpos s (by omega), AmountOut_of_neg s h0]; omega
    · rw [AmountIn_of_nonpos s (by omega), AmountOut_of_nonneg s (by omega)]; omega
    · rw [AmountIn_of_pos s h0, AmountOut_of_nonneg s (by omega)]; omega
  refine ⟨h1, by decide, by decide, ?_, hchar, ?_⟩
  · intro h
    have h2 := (h _ _ h1).2
    revert h2
    decide
  · intro s hs
    by_contra hneg
    have := (hchar s).1 hneg
    omega

/-- C4. `ParseCLPoolSwap` and `ParseBinPoolSwap` return nil exactly when the
topic count is not 3 or the payload has fewer than 64 bytes; a two-topic log
is rejected; and two logs with the same topic count and payload length are
both accepted or both rejected, whatever their contents. -/
theorem C4_rejection_iff_shape :
    (∀ log : Log, (ParseCLPoolSwap log = none ↔ log.Topics.length ≠ 3 ∨ log.Data.length < 64) ∧
      (ParseBinPoolSwap log = none ↔ log.Topics.length ≠ 3 ∨ log.Data.length < 64)) ∧
    (∀ log : Log, log.Topics.length = 2 →
      ParseCLPoolSwap log = none ∧ ParseBinPoolSwap log = none) ∧
    (∀ log log2 : Log, log.Topics.length = log2.Topics.length →
      log.Data.length = log2.Data.length →
      ((ParseCLPoolSwap log).isSome = (ParseCLPoolSwap log2).isSome ∧
        (ParseBinPoolSwap log).isSome = (ParseBinPoolSwap log2).isSome)) := by
  have key : ∀ log : Log,
      (parseSwap log).isSome = decide (log.Topics.length = 3 ∧ 64 ≤ log.Data.length) := by
    intro log
    unfold parseSwap
    split
    · rename_i hc
      have : ¬ (log.Topics.length = 3 ∧ 64 ≤ log.Data.length) := by omega
      simp [this]
    · rename_i hc
      have : log.Topics.length = 3 ∧ 64 ≤ log.Data.length := by omega
      simp [this]
  refine ⟨fun log => ⟨parseSwap_eq_none_iff log, parseSwap_eq_none_iff log⟩, ?_, ?_⟩
  · intro log h2
    have : parseSwap log = none := (parseSwap_eq_none_iff log).2 (Or.inl (by omega))
    exact ⟨this, this⟩
  · intro log log2 ht hd
    have : (parseSwap log).isSome = (parseSwap log2).isSome := by
      rw [key, key, ht, hd]
    exact ⟨this, this⟩

/-- Witness of `C4_rejection_iff_shape` at a two-topic log with the CLPool
signature and a full 64-byte payload of opposite-sign deltas: rejected. -/
theorem C4_rejection_iff_shape_witness :
    twoTopicLog.Topics.length = 2 ∧
    (ParseCLPoolSwap twoTopicLog = none ∧ ParseBinPoolSwap twoTopicLog = none) :=
  ⟨by decide, C4_rejection_iff_shape.2.1 twoTopicLog (by decide)⟩

/-- C5. For every event decoded by `parseSwap`, with amount0 the signed value
of the first payload word: IsToken0To1 is true exactly when amount0 > 0; it is
false when amount0 = 0 and when amount0 < 0; and any other decoded event with
the same amount0 reports the same direction, whatever the two amount1. -/
theorem C5_direction_iff_amount0_pos (log : Log) (s : Swap) (h : parseSwap log = some s) :
    s.amount0 = DecodeSignedInt256 (log.Data.take 32) ∧
    (s.IsToken0To1 = true ↔ 0 < s.amount0) ∧
    (s.amount0 = 0 → s.IsToken0To1 = false) ∧
    (s.amount0 < 0 → s.IsToken0To1 = false) ∧
    (∀ (log2 : Log) (s2 : Swap), parseSwap log2 = some s2 → s2.amount0 = s.amount0 →
      s2.IsToken0To1 = s.IsToken0To1) := by
  have hiff : ∀ t : Swap, t.IsToken0To1 = true ↔ 0 < t.amount0 := by
    intro t
    unfold Swap.IsToken0To1
    rw [decide_eq_true_iff]
    exact sign_pos_iff _
  refine ⟨(parseSwap_eq_some h).2.2.2.1, hiff s, ?_, ?_, ?_⟩
  · intro h0
    cases hb : s.IsToken0To1 with
    | false => rfl
    | true => have := (hiff s).1 hb; omega
  · intro h0
    cases hb : s.IsToken0To1 with
    | false => rfl
    | true => have := (hiff s).1 hb; omega
  · intro log2 s2 _ h0
    unfold Swap.IsToken0To1
    rw [h0]

set_option maxRecDepth 100000 in
/-- Witness of `C5_direction_iff_amount0_pos` at the log encoding
amount0 = +1000, amount1 = -990. -/
theorem C5_direction_iff_amount0_pos_witness :
    parseSwap (swapLog pancakeV4CLPoolSwapSignature 1000 (-990)) = some ⟨poolId, 1000, -990⟩ ∧
    (Swap.IsToken0To1 ⟨poolId, 1000, -990⟩ = true ↔ (0 : Int) < 1000) :=
  ⟨by decide,
    (C5_direction_iff_amount0_pos (swapLog pancakeV4CLPoolSwapSignature 1000 (-990))
      ⟨poolId, 1000, -990⟩ (by decide)).2.1⟩

/-- C6. For every log accepted by `parseSwap`, the bytes of PairID are the
first 20 bytes of the pool identifier `Topics[1]`, in order; and for any two
accepted logs the two PairIDs are equal exactly when the two pool identifiers
agree on their first 20 bytes, so bytes 20..31 never matter. -/
theorem C6_pairID_is_leading_poolId_bytes (log : Log) (s : Swap) (h : parseSwap log = some s) :
    ∃ pool : Hash, log.Topics[1]? = some pool ∧
      s.PairID.bytes = pool.bytes.take 20 ∧
      s.PairID.bytes.length = 20 ∧
      (∀ i : Nat, i < 20 → s.PairID.bytes[i]? = pool.bytes[i]?) ∧
      (∀ (log2 : Log) (s2 : Swap) (pool2 : Hash), parseSwap log2 = some s2 →
        log2.Topics[1]? = some pool2 →
        (s.PairID = s2.PairID ↔ pool.bytes.take 20 = pool2.bytes.take 20)) := by
  refine ⟨s.poolID, (parseSwap_eq_some h).2.2.1, PairID_bytes s, s.PairID.len, ?_, ?_⟩
  · intro i hi
    rw [PairID_bytes, List.getElem?_take_of_lt hi]
  · intro log2 s2 pool2 h2 hp2
    have e2 : s2.poolID = pool2 := by
      have := (parseSwap_eq_some h2).2.2.1
      rw [hp2] at this
      exact (Option.some.inj this).symm
    subst e2
    constructor
    · intro he
      rw [← PairID_bytes, ← PairID_bytes, he]
    · intro he
      apply Address_ext
      rw [PairID_bytes, PairID_bytes, he]

set_option maxRecDepth 100000 in
/-- Witness of `C6_pairID_is_leading_poolId_bytes` at a log whose pool identifier has
the bytes 1, 2, …, 32: the PairID bytes are 1, 2, …, 20. -/
theorem C6_pairID_is_leading_poolId_bytes_witness :
    parseSwap (swapLog pancakeV4CLPoolSwapSignature 1000 (-990)) = some ⟨poolId, 1000, -990⟩ ∧
    (∃ pool : Hash, (swapLog pancakeV4CLPoolSwapSignature 1000 (-990)).Topics[1]? = some pool ∧
      (Swap.PairID ⟨poolId, 1000, -990⟩).bytes = pool.bytes.take 20) :=
  ⟨by decide,
    (C6_pairID_is_leading_poolId_bytes (swapLog pancakeV4CLPoolSwapSignature 1000 (-990))
      ⟨poolId, 1000, -990⟩ (by decide)).imp (fun _ hp => ⟨hp.1, hp.2.1⟩)⟩

/-- C7. The output of `ParseSwapEvents` is a subsequence of the input in input
order: it is no longer than the input, and a strictly increasing (hence
injective) map sends each output position to an input position whose log
decodes to the event at that output position. -/
theorem C7_output_is_subsequence_of_input {E : Type} (D : Decoders E) (logs : List Log) :
    (ParseSwapEvents D logs).length ≤ logs.length ∧
    ∃ f : Fin (ParseSwapEvents D logs).length → Fin logs.length,
      StrictMono f ∧ Function.Injective f ∧
      ∀ i, decodeLog D (logs.get (f i)) = (ParseSwapEvents D logs).get i := by
  have hsub : (ParseSwapEvents D logs).Sublist (logs.map (decodeLog D)) := by
    rw [ParseSwapEvents_eq_filter]
    exact List.filter_sublist _
  constructor
  · have := hsub.length_le
    simpa using this
  · obtain ⟨f, hf⟩ := List.sublist_iff_exists_fin_orderEmbedding_get_eq.1 hsub
    have hlen : (logs.map (decodeLog D)).length = logs.length := List.length_map _ _
    have hmono : StrictMono (fun i => Fin.cast hlen (f i)) := by
      intro a b hab
      exact f.strictMono hab
    refine ⟨fun i => Fin.cast hlen (f i), hmono, hmono.injective, ?_⟩
    intro i
    rw [hf i]
    simp

/-- C8. Logs without topics and logs whose first topic is none of the ten
registered signatures contribute nothing: `ParseSwapEvents` gives the same
output on the list with all such logs removed. In particular, for a log `b`
with a PancakeSwap v4 signature that `parseSwap` decodes to `s`, placed
between two unrecognized logs, the output is the single event decoded from
`b`. -/
theorem C8_unrecognized_logs_contribute_nothing {E : Type} (D : Decoders E)
    (logs : List Log) :
    ParseSwapEvents D logs = ParseSwapEvents D (logs.filter recognized) ∧
    (∀ log : Log, log.Topics = [] → recognized log = false) ∧
    (∀ (log : Log) (signature : Hash) (rest : List Hash), log.Topics = signature :: rest →
      signature ∉ allSignatures → recognized log = false) ∧
    (∀ a b c : Log, recognized a = false → recognized c = false →
      ParseSwapEvents D [a, b, c] = ParseSwapEvents D [b]) ∧
    (∀ (a b c : Log) (rest : List Hash) (s : Swap), recognized a = false →
      recognized c = false →
      (b.Topics = pancakeV4CLPoolSwapSignature :: rest ∨
        b.Topics = pancakeV4BinPoolSwapSignature :: rest) →
      parseSwap b = some s →
      ParseSwapEvents D [a, b, c] = [SwapEvent.pancakev4 (some s)]) := by
  have hdrop : ∀ x : Log, recognized x = false → ParseSwapEvents D [x] = [] := by
    intro x hx
    rw [ParseSwapEvents_singleton, decodeLog_of_not_recognized D x hx]
    rfl
  have h3 : ∀ a b c : Log, recognized a = false → recognized c = false →
      ParseSwapEvents D [a, b, c] = ParseSwapEvents D [b] := by
    intro a b c ha hc
    rw [ParseSwapEvents_cons D a, ParseSwapEvents_cons D b, hdrop a ha, hdrop c hc]
    simp
  refine ⟨?_, ?_, ?_, h3, ?_⟩
  · induction logs with
    | nil => rfl
    | cons l ls ih =>
      rw [ParseSwapEvents_cons, ih]
      cases hl : recognized l with
      | false => rw [List.filter_cons_of_neg (by simp [hl]), hdrop l hl]; rfl
      | true => rw [List.filter_cons_of_pos hl]; exact (ParseSwapEvents_cons D l _).symm
  · intro log h
    simp [recognized, h]
  · intro log signature rest h hn
    simp [recognized, h, hn]
  · intro a b c rest s ha hc hb hs
    rw [h3 a b c ha hc, ParseSwapEvents_singleton]
    have : decodeLog D b = SwapEvent.pancakev4 (some s) := by
      unfold decodeLog
      rcases hb with hb | hb
      · rw [hb]; simp only []; rw [dispatch_CL]; unfold ParseCLPoolSwap; rw [hs]
      · rw [hb]; simp only []; rw [dispatch_Bin]; unfold ParseBinPoolSwap; rw [hs]
    rw [this]
    rfl

set_option maxRecDepth 100000 in
/-- Witness of `C8_unrecognized_logs_contribute_nothing`: a decoded
PancakeSwap v4 log between two ERC-20 `Transfer` logs yields exactly the one
event decoded from it. -/
theorem C8_unrecognized_logs_contribute_nothing_witness :
    recognized transferLog = false ∧
    parseSwap (swapLog pancakeV4CLPoolSwapSignature 1000 (-990)) =
      some ⟨poolId, 1000, -990⟩ ∧
    ParseSwapEvents noDecoders
        [transferLog, swapLog pancakeV4CLPoolSwapSignature 1000 (-990), transferLog] =
      [SwapEvent.pancakev4 (some ⟨poolId, 1000, -990⟩)] :=
  ⟨by decide, by decide,
    (C8_unrecognized_logs_contribute_nothing noDecoders []).2.2.2.2 transferLog
      (swapLog pancakeV4CLPoolSwapSignature 1000 (-990)) transferLog [poolId, senderTopic]
      ⟨poolId, 1000, -990⟩ (by decide) (by decide) (Or.inl rfl) (by decide)⟩

/-- C9. The ten registered signature hashes are pairwise distinct; hence for
every signature at most one of the seven branch conditions of the dispatch
chain holds, and evaluating the seven branches in any other order gives the
same value of `swap` as the chain of `ParseSwapEvents`. -/
theorem C9_signatures_distinct_and_branches_exclusive :
    allSignatures.length = 10 ∧
    allSignatures.Pairwise (fun a b => a ≠ b) ∧
    (∀ signature : Hash, (branchConditions signature).count true ≤ 1) ∧
    (∀ (E : Type) (D : Decoders E) (log : Log) (signature : Hash)
        (reordered : List (Bool × SwapEvent E)),
      reordered.Perm (branches D log signature) →
      firstMatch reordered SwapEvent.nil = dispatch D log signature) := by
  refine ⟨by decide, by decide, branchConditions_count_le_one, ?_⟩
  intro E D log signature reordered hp
  rw [dispatch_eq_firstMatch]
  apply firstMatch_perm _ _ _ hp
  rw [branches_conditions]
  exact branchConditions_count_le_one signature

set_option maxRecDepth 100000 in
/-- C10. For every log accepted by `parseSwap`, amount0 is the signed
two's-complement big-endian value of payload bytes 0..31 and amount1 that of
payload bytes 32..63: each lies in [-2^255, 2^255) and is congruent modulo
2^256 to the unsigned big-endian value of its 32-byte word. A first word of
32 bytes 0xff gives amount0 = -1, and a first word 0x7f followed by 31 bytes
0xff gives amount0 = 2^255 - 1. The decoder inverts the 32-byte
two's-complement encoding on the whole signed 256-bit range. -/
theorem C10_amounts_are_twos_complement_words (log : Log) (s : Swap)
    (h : parseSwap log = some s) :
    ((log.Data.take 32).length = 32 ∧ ∀ i : Nat, i < 32 →
      (log.Data.take 32)[i]? = log.Data[i]?) ∧
    (((log.Data.take 64).drop 32).length = 32 ∧ ∀ i : Nat, i < 32 →
      ((log.Data.take 64).drop 32)[i]? = log.Data[32 + i]?) ∧
    (s.amount0 = DecodeSignedInt256 (log.Data.take 32) ∧
      -(2 : Int) ^ 255 ≤ s.amount0 ∧ s.amount0 < 2 ^ 255 ∧
      s.amount0 % 2 ^ 256 = (beNat (log.Data.take 32) : Int)) ∧
    (s.amount1 = DecodeSignedInt256 ((log.Data.take 64).drop 32) ∧
      -(2 : Int) ^ 255 ≤ s.amount1 ∧ s.amount1 < 2 ^ 255 ∧
      s.amount1 % 2 ^ 256 = (beNat ((log.Data.take 64).drop 32) : Int)) ∧
    (log.Data.take 32 = List.replicate 32 255 → s.amount0 = -1) ∧
    (log.Data.take 32 = 127 :: List.replicate 31 255 → s.amount0 = 2 ^ 255 - 1) ∧
    (∀ z : Int, -(2 : Int) ^ 255 ≤ z → z < 2 ^ 255 →
      DecodeSignedInt256 (encodeInt256 z) = z) := by
  obtain ⟨_, hd, _, h0, h1⟩ := parseSwap_eq_some h
  have l0 : (log.Data.take 32).length = 32 := by
    rw [List.length_take]; omega
  have l1 : ((log.Data.take 64).drop 32).length = 32 := by
    rw [List.length_drop, List.length_take]; omega
  have r0 := DecodeSignedInt256_range _ l0
  have r1 := DecodeSignedInt256_range _ l1
  refine ⟨⟨l0, ?_⟩, ⟨l1, ?_⟩, ⟨h0, ?_, ?_, ?_⟩, ⟨h1, ?_, ?_, ?_⟩, ?_, ?_,
    DecodeSignedInt256_encodeInt256⟩
  · intro i hi
    exact List.getElem?_take_of_lt hi
  · intro i hi
    rw [List.getElem?_drop, List.getElem?_take_of_lt (by omega)]
  · rw [h0]; exact r0.1
  · rw [h0]; exact r0.2.1
  · rw [h0]; exact r0.2.2.1
  · rw [h1]; exact r1.1
  · rw [h1]; exact r1.2.1
  · rw [h1]; exact r1.2.2.1
  · intro hw
    rw [h0, hw]
    decide
  · intro hw
    rw [h0, hw]
    decide

set_option maxRecDepth 100000 in
/-- Witness of `C10_amounts_are_twos_complement_words` at a log whose payload
is 32 bytes 0xff followed by 0x7f and 31 bytes 0xff: amount0 = -1 and
amount1 = 2^255 - 1. -/
theorem C10_amounts_are_twos_complement_words_witness :
    parseSwap extremeLog = some ⟨poolId, -1, 2 ^ 255 - 1⟩ ∧
    ((-1 : Int) = DecodeSignedInt256 (extremeLog.Data.take 32) ∧
      -(2 : Int) ^ 255 ≤ -1 ∧ (-1 : Int) < 2 ^ 255 ∧
      (-1 : Int) % 2 ^ 256 = (beNat (extremeLog.Data.take 32) : Int)) :=
  ⟨by decide,
    (C10_amounts_are_twos_complement_words extremeLog ⟨poolId, -1, 2 ^ 255 - 1⟩
      (by decide)).2.2.1⟩

/-- C11. `parseSwap` is total: for every log, whatever its number of topics
and the length of its payload, the body of `parseSwap` run with every index
expression, slice expression and helper call checked ends without a fault and
returns what `parseSwap` returns (an event or nil). Both arguments passed to
the signed-integer helper are slices of exactly 32 bytes, and the topic index
1 is below the topic count whenever it is evaluated. -/
theorem C11_parseSwap_total_without_fault (log : Log) :
    parseSwapChecked log = Except.ok (parseSwap log) ∧
    (parseSwap log = none ∨ ∃ s : Swap, parseSwap log = some s) ∧
    (parseSwap log ≠ none →
      1 < log.Topics.length ∧
      goSlice log.Data 0 32 = Except.ok (log.Data.take 32) ∧
      goSlice log.Data 32 64 = Except.ok ((log.Data.take 64).drop 32) ∧
      (log.Data.take 32).length = 32 ∧ ((log.Data.take 64).drop 32).length = 32) := by
  refine ⟨parseSwapChecked_eq log, ?_, ?_⟩
  · cases hp : parseSwap log with
    | none => exact Or.inl rfl
    | some s => exact Or.inr ⟨s, rfl⟩
  · intro hne
    have hshape : ¬ (log.Topics.length ≠ 3 ∨ log.Data.length < 64) :=
      fun hc => hne ((parseSwap_eq_none_iff log).2 hc)
    have hd : 64 ≤ log.Data.length := by omega
    refine ⟨by omega, ?_, goSlice_of_le _ 32 64 (by omega) hd, ?_, ?_⟩
    · rw [goSlice_of_le _ 0 32 (by omega) (by omega), List.drop_zero]
    · rw [List.length_take]; omega
    · rw [List.length_drop, List.length_take]; omega

set_option maxRecDepth 100000 in
/-- Witness of `C11_parseSwap_total_without_fault`: on the log with no topic
and an empty payload the checked body returns nil without a fault, and on an
accepted log it returns the event. -/
theorem C11_parseSwap_total_without_fault_witness :
    parseSwapChecked emptyLog = Except.ok none ∧
    parseSwapChecked (swapLog pancakeV4CLPoolSwapSignature 1000 (-990)) =
      Except.ok (some ⟨poolId, 1000, -990⟩) :=
  ⟨(C11_parseSwap_total_without_fault emptyLog).1.trans (congrArg Except.ok (by decide)),
    (C11_parseSwap_total_without_fault (swapLog pancakeV4CLPoolSwapSignature 1000 (-990))).1.trans
      (congrArg Except.ok (by decide))⟩

/-- C12. For every log with exactly 3 topics and a payload of at least 64
bytes whose first topic is the CLPool or the BinPool signature,
`ParseSwapEvents` on the one-element list returns exactly one event, and it is
the event `parseSwap` produces for the log (so PairID, IsToken0To1, AmountIn
and AmountOut are those of that event), whatever the decoders of the other
families are. -/
theorem C12_single_pancake_log_yields_its_event (log : Log)
    (h3 : log.Topics.length = 3) (hd : 64 ≤ log.Data.length)
    (hsig : log.Topics[0]? = some pancakeV4CLPoolSwapSignature ∨
      log.Topics[0]? = some pancakeV4BinPoolSwapSignature) :
    ∃ s : Swap, parseSwap log = some s ∧
      (∀ (E : Type) (D : Decoders E),
        ParseSwapEvents D [log] = [SwapEvent.pancakev4 (some s)] ∧
        (ParseSwapEvents D [log]).length = 1) ∧
      (∀ (E : Type) (D D2 : Decoders E), ParseSwapEvents D [log] = ParseSwapEvents D2 [log]) := by
  obtain ⟨s, hs⟩ := parseSwap_of_shape log h3 hd
  have key : ∀ (E : Type) (D : Decoders E),
      ParseSwapEvents D [log] = [SwapEvent.pancakev4 (some s)] := by
    intro E D
    rw [ParseSwapEvents_singleton, decodeLog_pancake D log hsig, hs]
    rfl
  refine ⟨s, hs, fun E D => ⟨key E D, by rw [key E D]; rfl⟩, fun E D D2 => ?_⟩
  rw [key E D, key E D2]

set_option maxRecDepth 100000 in
/-- Witness of `C12_single_pancake_log_yields_its_event` at a BinPool log
encoding amount0 = +1000, amount1 = -990. -/
theorem C12_single_pancake_log_yields_its_event_witness :
    (swapLog pancakeV4BinPoolSwapSignature 1000 (-990)).Topics.length = 3 ∧
    (∃ s : Swap, parseSwap (swapLog pancakeV4BinPoolSwapSignature 1000 (-990)) = some s ∧
      ParseSwapEvents noDecoders [swapLog pancakeV4BinPoolSwapSignature 1000 (-990)] =
        [SwapEvent.pancakev4 (some s)]) :=
  ⟨by decide,
    (C12_single_pancake_log_yields_its_event (swapLog pancakeV4BinPoolSwapSignature 1000 (-990))
      (by decide) (by decide) (Or.inr rfl)).imp
      (fun _ hp => ⟨hp.1, (hp.2.1 Unit noDecoders).1⟩)⟩

/-- C13. `ParseSwapEvents` distributes over concatenation and maps the empty
list to the empty list; hence the output is the concatenation, in order, of
the outputs on the one-element lists: every log is decoded independently of
the others. -/
theorem C13_ParseSwapEvents_distributes_over_append {E : Type} (D : Decoders E) :
    (∀ xs ys : List Log,
      ParseSwapEvents D (xs ++ ys) = ParseSwapEvents D xs ++ ParseSwapEvents D ys) ∧
    ParseSwapEvents D [] = [] ∧
    (∀ logs : List Log,
      ParseSwapEvents D logs = (logs.map (fun log => ParseSwapEvents D [log])).flatten) := by
  refine ⟨ParseSwapEvents_append D, rfl, ?_⟩
  intro logs
  induction logs with
  | nil => rfl
  | cons l ls ih =>
    rw [ParseSwapEvents_cons, List.map_cons, List.flatten_cons, ← ih]

/-- C14. Two accepted logs that agree on `Topics[1]` and on the payload bytes
0..63 are decoded to the same event, so PairID, IsToken0To1, AmountIn and
AmountOut are equal, whatever the emitting addresses, `Topics[0]`,
`Topics[2]` and the payload bytes from offset 64 on. -/
theorem C14_event_depends_on_poolId_and_first_64_bytes (log log2 : Log) (s s2 : Swap)
    (h : parseSwap log = some s) (h2 : parseSwap log2 = some s2)
    (htopic : log.Topics[1]? = log2.Topics[1]?)
    (hdata : log.Data.take 64 = log2.Data.take 64) :
    s = s2 ∧ s.PairID = s2.PairID ∧ s.IsToken0To1 = s2.IsToken0To1 ∧
      s.AmountIn = s2.AmountIn ∧ s.AmountOut = s2.AmountOut := by
  obtain ⟨_, _, hp, ha0, ha1⟩ := parseSwap_eq_some h
  obtain ⟨_, _, hp2, hb0, hb1⟩ := parseSwap_eq_some h2
  have e32 : log.Data.take 32 = log2.Data.take 32 := by
    have := congrArg (List.take 32) hdata
    simpa [List.take_take] using this
  have hpool : s.poolID = s2.poolID := by
    rw [hp, hp2] at htopic
    exact Option.some.inj htopic
  have hs : s = s2 := by
    cases s; cases s2
    simp only [Swap.mk.injEq]
    simp only at hpool ha0 ha1 hb0 hb1
    refine ⟨hpool, ?_, ?_⟩
    · rw [ha0, hb0, e32]
    · rw [ha1, hb1, hdata]
  subst hs
  exact ⟨rfl, rfl, rfl, rfl, rfl⟩

set_option maxRecDepth 100000 in
/-- Witness of `C14_event_depends_on_poolId_and_first_64_bytes`: two logs with
different emitting address, signature, sender topic and payload length, and
the same pool identifier and first 64 payload bytes. -/
theorem C14_event_depends_on_poolId_and_first_64_bytes_witness :
    (swapLog pancakeV4CLPoolSwapSignature 1000 (-990)).Address ≠ variantLog.Address ∧
    (swapLog pancakeV4CLPoolSwapSignature 1000 (-990)).Topics[0]? ≠ variantLog.Topics[0]? ∧
    (swapLog pancakeV4CLPoolSwapSignature 1000 (-990)).Topics[2]? ≠ variantLog.Topics[2]? ∧
    (swapLog pancakeV4CLPoolSwapSignature 1000 (-990)).Data ≠ variantLog.Data ∧
    parseSwap variantLog = some ⟨poolId, 1000, -990⟩ ∧
    ((⟨poolId, 1000, -990⟩ : Swap) = ⟨poolId, 1000, -990⟩ ∧
      Swap.PairID ⟨poolId, 1000, -990⟩ = Swap.PairID ⟨poolId, 1000, -990⟩ ∧
      Swap.IsToken0To1 ⟨poolId, 1000, -990⟩ = Swap.IsToken0To1 ⟨poolId, 1000, -990⟩ ∧
      Swap.AmountIn ⟨poolId, 1000, -990⟩ = Swap.AmountIn ⟨poolId, 1000, -990⟩ ∧
      Swap.AmountOut ⟨poolId, 1000, -990⟩ = Swap.AmountOut ⟨poolId, 1000, -990⟩) :=
  ⟨by decide, by decide, by decide, by decide, by decide,
    C14_event_depends_on_poolId_and_first_64_bytes
      (swapLog pancakeV4CLPoolSwapSignature 1000 (-990)) variantLog
      ⟨poolId, 1000, -990⟩ ⟨poolId, 1000, -990⟩ (by decide) (by decide) (by decide)
      (by decide)⟩

/-- C15. `ParseCLPoolSwap` and `ParseBinPoolSwap` are the same function: on
every log they both return nil, or both return events with equal PairID,
IsToken0To1, AmountIn and AmountOut. -/
theorem C15_CLPool_and_BinPool_parsers_agree :
    ParseCLPoolSwap = ParseBinPoolSwap ∧
    ∀ log : Log,
      (ParseCLPoolSwap log = none ∧ ParseBinPoolSwap log = none) ∨
      ∃ s s2 : Swap, ParseCLPoolSwap log = some s ∧ ParseBinPoolSwap log = some s2 ∧
        s.PairID = s2.PairID ∧ s.IsToken0To1 = s2.IsToken0To1 ∧
        s.AmountIn = s2.AmountIn ∧ s.AmountOut = s2.AmountOut := by
  refine ⟨rfl, fun log => ?_⟩
  cases hp : parseSwap log with
  | none => exact Or.inl ⟨hp, hp⟩
  | some s => exact Or.inr ⟨s, s, hp, hp, rfl, rfl, rfl, rfl⟩

/-- C16. For every pancakev4 event whose two deltas have the same strict
sign, AmountIn and AmountOut are both strictly positive: when amount0 > 0 and
amount1 > 0, AmountIn = amount0 and AmountOut = amount1; when amount0 < 0 and
amount1 < 0, AmountIn = -amount1 and AmountOut = -amount0. -/
theorem C16_same_sign_amounts (s : Swap) :
    (0 < s.amount0 ∧ 0 < s.amount1 →
      s.AmountIn = s.amount0 ∧ s.AmountOut = s.amount1 ∧ 0 < s.AmountIn ∧ 0 < s.AmountOut) ∧
    (s.amount0 < 0 ∧ s.amount1 < 0 →
      s.AmountIn = -s.amount1 ∧ s.AmountOut = -s.amount0 ∧
        0 < s.AmountIn ∧ 0 < s.AmountOut) := by
  constructor
  · rintro ⟨h0, h1⟩
    have e1 := AmountIn_of_pos s h0
    have e2 := AmountOut_of_nonneg s (by omega)
    exact ⟨e1, e2, by rw [e1]; exact h0, by rw [e2]; exact h1⟩
  · rintro ⟨h0, h1⟩
    have e1 := AmountIn_of_nonpos s (by omega)
    have e2 := AmountOut_of_neg s h0
    exact ⟨e1, e2, by rw [e1]; omega, by rw [e2]; omega⟩

set_option maxRecDepth 100000 in
/-- Witness of `C16_same_sign_amounts` at the events decoded from the payloads
(+7, +5) and (-7, -5). -/
theorem C16_same_sign_amounts_witness :
    parseSwap (swapLog pancakeV4CLPoolSwapSignature 7 5) = some ⟨poolId, 7, 5⟩ ∧
    parseSwap (swapLog pancakeV4CLPoolSwapSignature (-7) (-5)) = some ⟨poolId, -7, -5⟩ ∧
    (Swap.AmountIn ⟨poolId, 7, 5⟩ = 7 ∧ Swap.AmountOut ⟨poolId, 7, 5⟩ = 5 ∧
      0 < Swap.AmountIn ⟨poolId, 7, 5⟩ ∧ 0 < Swap.AmountOut ⟨poolId, 7, 5⟩) ∧
    (Swap.AmountIn ⟨poolId, -7, -5⟩ = 5 ∧ Swap.AmountOut ⟨poolId, -7, -5⟩ = 7 ∧
      0 < Swap.AmountIn ⟨poolId, -7, -5⟩ ∧ 0 < Swap.AmountOut ⟨poolId, -7, -5⟩) :=
  ⟨by decide, by decide,
    (C16_same_sign_amounts ⟨poolId, 7, 5⟩).1 ⟨by decide, by decide⟩,
    (C16_same_sign_amounts ⟨poolId, -7, -5⟩).2 ⟨by decide, by decide⟩⟩

end Bscexorcist
